/-
Verification of the Scouts repository's two scripts against their
natural-language specification.

The development shallowly embeds the Python code of
`check_all_renewals.py` (keyword/regex extraction of safeguarding
completion dates, strict dd/mm/yyyy vetting-date parsing, the
3-year/90-day renewal and expiry classification) and of
`scouts_courses_scraper.py` (the positional course-field parser
`parse_course_info`).

Modelling conventions:
  * Python strings are `List Char` (`PyStr`); character classes model the
    ASCII behaviour of Python's `\d`, `\s`, `str.strip`, `str.lower`.
  * A pandas cell is `Option PyStr`; `none` is a NaN cell (`pd.isna`).
  * `datetime` values are `Date` records; `datetime(y, m, d)` is
    `mkDatetime`, which returns `none` exactly when the constructor would
    raise `ValueError`.  A function that can raise is embedded in
    `Except Unit`; `.error ()` is an uncaught Python exception.
  * The ordering and arithmetic of `datetime`/`timedelta` values is
    embedded through microseconds-since-epoch (`dateUsec`, `usecPerDay`);
    `today = datetime.now()` is an arbitrary `Int` of microseconds, so
    its time-of-day component is retained.
  * The three regular expressions of the source are run by a small
    backtracking engine (`matchFuel`) over token lists (`vetToks`,
    `fromToks`, `dateToks`): greedy single-class repetitions with
    backtracking, leftmost search (`reSearch`), non-overlapping scan
    (`reFindAll`), and an end-anchored match for `re.match(r'^...$', s)`
    (`reFullMatch`), following Python's leftmost-then-greedy semantics.
-/

import Mathlib

namespace Scouts

/-! ## Strings -/

/-- A Python string, modelled as its list of characters. -/
abbrev PyStr := List Char

/-- Python's regex class `\d` (ASCII model): the characters 0-9. -/
def isDig (c : Char) : Bool := 48 ≤ c.toNat && c.toNat ≤ 57

/-- Python's regex class `\s` (ASCII model): space, tab, newline,
carriage return, vertical tab, form feed. -/
def isSpc (c : Char) : Bool :=
  c = ' ' || c = '\t' || c = '\n' || c = '\r' || c = '\x0b' || c = '\x0c'

/-- Python's `str.lower()` (ASCII model). -/
def pyLower (s : PyStr) : PyStr := s.map Char.toLower

/-- Python's `str.strip()` (ASCII whitespace model): remove leading and
trailing whitespace. -/
def pyStrip (s : PyStr) : PyStr :=
  ((s.dropWhile isSpc).reverse.dropWhile isSpc).reverse

/-- Python's `str.split(sep)` for a one-character separator: split at every
occurrence, keeping empty pieces (so the result is never empty). -/
def pySplitC (sep : Char) : PyStr → List PyStr
  | [] => [[]]
  | c :: cs =>
    match pySplitC sep cs with
    | [] => [[]]
    | g :: gs => if c = sep then [] :: g :: gs else (c :: g) :: gs

/-- Does `s` start with `pre`? (helper for substring containment). -/
def listStarts : PyStr → PyStr → Bool
  | [], _ => true
  | _ :: _, [] => false
  | a :: as, b :: bs => a == b && listStarts as bs

/-- Python's `pat in s` substring test. -/
def pyContains (pat : PyStr) : PyStr → Bool
  | [] => listStarts pat []
  | c :: rest => listStarts pat (c :: rest) || pyContains pat rest

/-- Python's `int(...)` on a string of decimal digits. -/
def natOfDigits (ds : PyStr) : Nat :=
  ds.foldl (fun a c => 10 * a + (c.toNat - 48)) 0

/-- The character of a decimal digit value. -/
def digitChar (n : Nat) : Char := Char.ofNat (48 + n)

/-! ## A small backtracking regex engine

Each token is one character class repeated between `lo` and `hi` times
(`hi = none` is unbounded), optionally a capture group; exactly the shapes
the three patterns of the source use. -/

/-- One token of a pattern: a character class with a greedy repetition
range and a capture flag. -/
structure RTok where
  cls : Char → Bool
  lo : Nat
  hi : Option Nat
  cap : Bool

/-- Length of the longest prefix of `s` all of whose characters satisfy
`p`. -/
def runLen (p : Char → Bool) : List Char → Nat
  | [] => 0
  | c :: cs => if p c then runLen p cs + 1 else 0

/-- The largest repetition count the token can consume from `s`. -/
def runMax (t : RTok) (s : List Char) : Nat :=
  match t.hi with
  | none => runLen t.cls s
  | some h => min h (runLen t.cls s)

/-- `descFrom n hi = [hi, hi - 1, ...]`, `n` entries. -/
def descFrom : Nat → Nat → List Nat
  | 0, _ => []
  | n + 1, hi => hi :: descFrom n (hi - 1)

/-- The candidate repetition counts `hi, hi - 1, ..., lo`, greedy order
(empty when `hi < lo`). -/
def descRange (lo hi : Nat) : List Nat := descFrom (hi + 1 - lo) hi

/-- Try the candidate repetition counts for token `t` in order; `rest`
matches the remaining tokens.  Returns the collected captures and the
number of characters consumed. -/
def tryKs (t : RTok) (rest : List Char → Option (List (List Char) × Nat))
    (s : List Char) : List Nat → Option (List (List Char) × Nat)
  | [] => none
  | k :: ks =>
    match rest (List.drop k s) with
    | some (caps, n) =>
        some ((if t.cap then [List.take k s] else []) ++ caps, k + n)
    | none => tryKs t rest s ks

/-- Backtracking matcher for a token list at the start of `s`.  With
`endAnchor` the match must consume all of `s` (the `$` of a pattern).
The fuel only needs to exceed the number of tokens. -/
def matchFuel (endAnchor : Bool) : Nat → List RTok → List Char →
    Option (List (List Char) × Nat)
  | 0 => fun _ _ => none
  | fuel + 1 => fun toks s =>
    match toks with
    | [] => if endAnchor && !s.isEmpty then none else some ([], 0)
    | t :: ts => tryKs t (matchFuel endAnchor fuel ts) s (descRange t.lo (runMax t s))

/-- Python's `re.match(r'^pat$', s)`: anchored at both ends, returning the
captures. -/
def reFullMatch (toks : List RTok) (s : List Char) : Option (List (List Char)) :=
  match matchFuel true (List.length toks + 1) toks s with
  | some (caps, _) => some caps
  | none => none

/-- Leftmost search: try an anchored-at-start match at each successive
start position. -/
def searchFuel (toks : List RTok) : Nat → List Char → Option (List (List Char))
  | 0 => fun _ => none
  | fuel + 1 => fun s =>
    match matchFuel false (List.length toks + 1) toks s with
    | some (caps, _) => some caps
    | none =>
      match s with
      | [] => none
      | _ :: rest => searchFuel toks fuel rest

/-- Python's `re.search(pat, s)`. -/
def reSearch (toks : List RTok) (s : List Char) : Option (List (List Char)) :=
  searchFuel toks (s.length + 1) s

/-- Scan for all non-overlapping matches, leftmost first, resuming after
each match (Python's `re.findall`). -/
def findAllFuel (toks : List RTok) : Nat → List Char → List (List (List Char))
  | 0 => fun _ => []
  | fuel + 1 => fun s =>
    match matchFuel false (List.length toks + 1) toks s with
    | some (caps, n) => caps :: findAllFuel toks fuel (List.drop (max n 1) s)
    | none =>
      match s with
      | [] => []
      | _ :: rest => findAllFuel toks fuel rest

/-- Python's `re.findall(pat, s)`: the capture tuples of every match. -/
def reFindAll (toks : List RTok) (s : List Char) : List (List (List Char)) :=
  findAllFuel toks (s.length + 1) s

/-- A captured run of digits: `(\d{lo,hi})`. -/
def digTok (lo hi : Nat) : RTok := ⟨isDig, lo, some hi, true⟩

/-- A literal character. -/
def litTok (c : Char) : RTok := ⟨fun x => x == c, 1, some 1, false⟩

/-- A literal character under `re.IGNORECASE` (`c` given in lowercase). -/
def litCITok (c : Char) : RTok := ⟨fun x => x.toLower == c, 1, some 1, false⟩

/-- `\s+`. -/
def spcTok : RTok := ⟨isSpc, 1, none, false⟩

/-- The tokens of `r'^(\d{1,2})/(\d{1,2})/(\d{4})$'` (parse_vetting_date). -/
def vetToks : List RTok :=
  [digTok 1 2, litTok '/', digTok 1 2, litTok '/', digTok 4 4]

/-- The tokens of `r'from\s+(\d{1,2})/(\d{1,2})/(\d{4})\s+to'` with
`re.IGNORECASE` (extract_safeguarding_date, preferred pattern). -/
def fromToks : List RTok :=
  [litCITok 'f', litCITok 'r', litCITok 'o', litCITok 'm', spcTok,
   digTok 1 2, litTok '/', digTok 1 2, litTok '/', digTok 4 4,
   spcTok, litCITok 't', litCITok 'o']

/-- The tokens of `r'(\d{1,2})/(\d{1,2})/(\d{4})'` (fallback pattern). -/
def dateToks : List RTok :=
  [digTok 1 2, litTok '/', digTok 1 2, litTok '/', digTok 4 4]

/-! ## Dates (`datetime.datetime`, midnight values) -/

/-- A calendar date; `datetime(year, month, day)` values (the time part of
every parsed datetime is midnight). -/
structure Date where
  year : Nat
  month : Nat
  day : Nat
deriving DecidableEq, Repr

/-- The Gregorian leap-year rule (Python's `calendar.isleap`). -/
def isLeap (y : Nat) : Bool := y % 4 == 0 && (y % 100 != 0 || y % 400 == 0)

/-- Days in a month of a year. -/
def daysInMonth (y m : Nat) : Nat :=
  if m = 2 then (if isLeap y then 29 else 28)
  else if m = 4 || m = 6 || m = 9 || m = 11 then 30
  else 31

/-- The validation `datetime.__new__` performs on year, month and day. -/
def validYMD (y m d : Nat) : Bool :=
  decide (1 ≤ y) && decide (y ≤ 9999) && decide (1 ≤ m) && decide (m ≤ 12) &&
  decide (1 ≤ d) && decide (d ≤ daysInMonth y m)

/-- `datetime(y, m, d)`: `none` exactly when Python raises `ValueError`. -/
def mkDatetime (y m d : Nat) : Option Date :=
  if validYMD y m d then some ⟨y, m, d⟩ else none

/-- Days before January 1 of year `y` (proleptic Gregorian). -/
def daysBeforeYear (y : Nat) : Nat :=
  (y - 1) * 365 + (y - 1) / 4 - (y - 1) / 100 + (y - 1) / 400

/-- Days of year `y` before the first of month `m`. -/
def daysBeforeMonth (y m : Nat) : Nat :=
  ((List.range (m - 1)).map (fun i => daysInMonth y (i + 1))).foldl (· + ·) 0

/-- `date.toordinal()`: day count from 01/01/0001 = 1. -/
def toOrdinal (d : Date) : Nat :=
  daysBeforeYear d.year + daysBeforeMonth d.year d.month + d.day

/-- Microseconds per day, the resolution of `datetime`/`timedelta`. -/
def usecPerDay : Int := 86400000000

/-- A midnight datetime as microseconds on the `datetime` timeline. -/
def dateUsec (d : Date) : Int := (toOrdinal d : Int) * usecPerDay

/-! ## The two date parsers of check_all_renewals.py -/

/-- Build `datetime(int(year), int(month), int(day))` from the three
captured digit strings; `.error ()` is the `ValueError` Python raises when
the numbers are not a real calendar date. -/
def dmYToResult (ds ms ys : PyStr) : Except Unit (Option Date) :=
  match mkDatetime (natOfDigits ys) (natOfDigits ms) (natOfDigits ds) with
  | some d => .ok (some d)
  | none => .error ()

/-- The captures of `re.match(r'^(\d{1,2})/(\d{1,2})/(\d{4})$', s.strip())`
on a vetting cell (`none` for a NaN cell or no match). -/
def vetCaps (cell : Option PyStr) : Option (List PyStr) :=
  match cell with
  | none => none
  | some s => reFullMatch vetToks (pyStrip s)

/-- `parse_vetting_date` (check_all_renewals.py lines 59-72). -/
def parse_vetting_date (cell : Option PyStr) : Except Unit (Option Date) :=
  match vetCaps cell with
  | some (ds :: ms :: ys :: _) => dmYToResult ds ms ys
  | _ => .ok none

/-- The keyword lists of `extract_safeguarding_date`. -/
def safeguardingKeywords : List PyStr :=
  ["safeguarding".toList, "safe guarding".toList]

/-- Is the course text safeguarding-qualifying?  A case-insensitive
keyword match, or the literal string 'Being A Scouter'. -/
def sgQualifies (t : PyStr) : Bool :=
  (safeguardingKeywords.any fun k => pyContains (pyLower k) (pyLower t)) ||
  pyContains ("Being A Scouter".toList) t

/-- The day/month/year captures `extract_safeguarding_date` selects: the
`from D/M/Y to` search when it matches, otherwise the last `D/M/Y`
substring found anywhere in the text. -/
def sgCaps (t : PyStr) : Option (List PyStr) :=
  match reSearch fromToks t with
  | some caps => some caps
  | none => (reFindAll dateToks t).getLast?

/-- `extract_safeguarding_date` (check_all_renewals.py lines 23-57). -/
def extract_safeguarding_date (cell : Option PyStr) : Except Unit (Option Date) :=
  match cell with
  | none => .ok none
  | some t =>
    if !sgQualifies t then .ok none
    else
      match sgCaps t with
      | some (ds :: ms :: ys :: _) => dmYToResult ds ms ys
      | _ => .ok none

/-! ## The classification loops of check_all_renewals.py

A training row is a total map from column index to cell (a pandas row has
a fixed set of columns); the script reads the course columns 5..25. -/

/-- The course-text cells the script examines: `row.iloc[col_idx]` for
`col_idx in range(5, 26)`. -/
def trainingCols (row : Nat → Option PyStr) : List (Option PyStr) :=
  (List.range 21).map (fun i => row (5 + i))

/-- The loop `for col_idx in range(5, 26): ... all_safeguarding_dates.append`:
every extracted date in column order (an exception in any column aborts). -/
def collectSgDates : List (Option PyStr) → Except Unit (List Date)
  | [] => .ok []
  | c :: cs =>
    match extract_safeguarding_date c with
    | .error e => .error e
    | .ok od =>
      match collectSgDates cs with
      | .error e => .error e
      | .ok rest =>
        .ok (match od with
             | some d => d :: rest
             | none => rest)

/-- Python's `max` over a nonempty list: left fold, a later element
replaces the current one only when strictly greater. -/
def pyMaxFold (cur : Date) : List Date → Date
  | [] => cur
  | d :: ds => pyMaxFold (if dateUsec cur < dateUsec d then d else cur) ds

/-- `max(all_safeguarding_dates)` guarded by `if all_safeguarding_dates:`:
`none` on the empty list. -/
def pyMax : List Date → Option Date
  | [] => none
  | d :: ds => some (pyMaxFold d ds)

/-- `latest_date = max(all_safeguarding_dates)` for a training row, when
any safeguarding date was extracted. -/
def sgLatest (row : Nat → Option PyStr) : Except Unit (Option Date) :=
  match collectSgDates (trainingCols row) with
  | .error e => .error e
  | .ok ds => .ok (pyMax ds)

/-- `expiry_date = latest_date + timedelta(days=365 * 3)`. -/
def expiryOf (d : Date) : Int := dateUsec d + usecPerDay * (365 * 3)

/-- The per-person data the renewal report stores: the completion date,
the expiry instant and `(expiry_date - today).days`. -/
structure RenewalInfo where
  lastCompleted : Date
  expiry : Int
  daysUntil : Int
deriving DecidableEq, Repr

/-- The per-person data an expired-requirements entry stores. -/
structure ExpiredInfo where
  lastCompleted : Date
  expiry : Int
  daysExpired : Int
deriving DecidableEq, Repr

/-- The safeguarding body of the renewal loop (lines 112-140): the entry
recorded in `all_renewals` for this row, `none` when the row records no
date or its expiry falls outside `today <= expiry <= today + 90 days`. -/
def processTrainingRow (today : Int) (row : Nat → Option PyStr) :
    Except Unit (Option RenewalInfo) :=
  match sgLatest row with
  | .error e => .error e
  | .ok none => .ok none
  | .ok (some latest) =>
    if today ≤ expiryOf latest ∧ expiryOf latest ≤ today + usecPerDay * 90 then
      .ok (some ⟨latest, expiryOf latest, Int.fdiv (expiryOf latest - today) usecPerDay⟩)
    else .ok none

/-- The vetting body of the renewal loop (lines 144-167), reading the
'Latest Vetting Completion Date' cell. -/
def processVettingRow (today : Int) (cell : Option PyStr) :
    Except Unit (Option RenewalInfo) :=
  match parse_vetting_date cell with
  | .error e => .error e
  | .ok none => .ok none
  | .ok (some d) =>
    if today ≤ expiryOf d ∧ expiryOf d ≤ today + usecPerDay * 90 then
      .ok (some ⟨d, expiryOf d, Int.fdiv (expiryOf d - today) usecPerDay⟩)
    else .ok none

/-- The safeguarding body of the expired loop (lines 200-223): the entry
appended to `expired_items`, present exactly when `expiry_date < today`. -/
def expiredTrainingRow (today : Int) (row : Nat → Option PyStr) :
    Except Unit (Option ExpiredInfo) :=
  match sgLatest row with
  | .error e => .error e
  | .ok none => .ok none
  | .ok (some latest) =>
    if expiryOf latest < today then
      .ok (some ⟨latest, expiryOf latest, Int.fdiv (today - expiryOf latest) usecPerDay⟩)
    else .ok none

/-- The vetting body of the expired loop (lines 226-242). -/
def expiredVettingRow (today : Int) (cell : Option PyStr) :
    Except Unit (Option ExpiredInfo) :=
  match parse_vetting_date cell with
  | .error e => .error e
  | .ok none => .ok none
  | .ok (some d) =>
    if expiryOf d < today then
      .ok (some ⟨d, expiryOf d, Int.fdiv (today - expiryOf d) usecPerDay⟩)
    else .ok none

/-! ## parse_course_info of scouts_courses_scraper.py -/

/-- The six-field record `parse_course_info` fills. -/
structure CourseData where
  title : PyStr
  description : PyStr
  status : PyStr
  location : PyStr
  date : PyStr
  bookable : PyStr
deriving DecidableEq, Repr

/-- The record with every field the empty string. -/
def emptyCourse : CourseData := ⟨[], [], [], [], [], []⟩

/-- `[line.strip() for line in raw_text.split('\n') if line.strip()]`. -/
def courseLines (raw : PyStr) : List PyStr :=
  ((pySplitC '\n' raw).map pyStrip).filter (fun l => !l.isEmpty)

/-- `parse_course_info` (scouts_courses_scraper.py lines 95-127).
`.error ()` is the `IndexError` Python raises when a line index or a
split index is out of range. -/
def parse_course_info (raw : PyStr) : Except Unit CourseData :=
  if raw.length < 50 then .ok emptyCourse
  else
    let ls := courseLines raw
    match ls.get? 0 with
    | none => .error ()
    | some l0 =>
      match ls.get? 1 with
      | none => .error ()
      | some l1 =>
        match ls.get? 2 with
        | none => .error ()
        | some l2 =>
          match (pySplitC ':' l2).get? 1 with
          | none => .error ()
          | some st =>
            match ls.get? 3 with
            | none => .error ()
            | some l3 =>
              match (pySplitC '-' l3).get? 1 with
              | none => .error ()
              | some dt =>
                let cd : CourseData :=
                  ⟨l0, l1, pyStrip st, pyStrip ((pySplitC '-' l3).getD 0 []),
                   pyStrip dt, if 5 < ls.length then ls.getD 5 [] else []⟩
                if l0.isEmpty && l1.isEmpty then .ok emptyCourse else .ok cd

/-! ## Helper lemmas -/

theorem pySplitC_ne_nil (sep : Char) (l : PyStr) : pySplitC sep l ≠ [] := by
  cases l with
  | nil => simp [pySplitC]
  | cons c cs =>
    rcases h : pySplitC sep cs with _ | ⟨g, gs⟩
    · simp [pySplitC, h]
    · simp only [pySplitC, h]
      split <;> simp

theorem pySplitC_two_iff (sep : Char) (l : PyStr) :
    2 ≤ (pySplitC sep l).length ↔ sep ∈ l := by
  induction l with
  | nil => simp [pySplitC]
  | cons c cs ih =>
    rcases h : pySplitC sep cs with _ | ⟨g, gs⟩
    · exact absurd h (pySplitC_ne_nil sep cs)
    · rw [h] at ih
      simp only [pySplitC, h]
      by_cases hc : c = sep
      · subst hc
        simp only [if_pos rfl]
        simp [Nat.succ_le_succ, Nat.le_add_left]
      · rw [if_neg hc]
        simp only [List.length_cons] at ih ⊢
        rw [List.mem_cons]
        constructor
        · intro hle
          exact Or.inr (ih.mp hle)
        · rintro (heq | hmem)
          · exact absurd heq.symm hc
          · exact ih.mpr hmem

theorem mem_courseLines_ne_nil {raw l : PyStr} (h : l ∈ courseLines raw) :
    l ≠ [] := by
  have := List.of_mem_filter h
  simpa [List.isEmpty_iff] using this

theorem pyMaxFold_mem (l : List Date) : ∀ cur : Date,
    pyMaxFold cur l = cur ∨ pyMaxFold cur l ∈ l := by
  induction l with
  | nil => intro cur; left; rfl
  | cons d ds ih =>
    intro cur
    have hstep : pyMaxFold cur (d :: ds) =
        pyMaxFold (if dateUsec cur < dateUsec d then d else cur) ds := rfl
    rw [hstep]
    rcases ih (if dateUsec cur < dateUsec d then d else cur) with h | h
    · rw [h]
      split
      · right; exact List.mem_cons_self _ _
      · left; rfl
    · right; exact List.mem_cons_of_mem _ h

theorem pyMaxFold_le (l : List Date) : ∀ cur : Date,
    dateUsec cur ≤ dateUsec (pyMaxFold cur l) ∧
      ∀ x ∈ l, dateUsec x ≤ dateUsec (pyMaxFold cur l) := by
  induction l with
  | nil => intro cur; exact ⟨le_refl _, by simp⟩
  | cons d ds ih =>
    intro cur
    obtain ⟨h1, h2⟩ := ih (if dateUsec cur < dateUsec d then d else cur)
    have hcur : dateUsec cur ≤ dateUsec (if dateUsec cur < dateUsec d then d else cur) := by
      split <;> [exact le_of_lt (by assumption); exact le_refl _]
    have hd : dateUsec d ≤ dateUsec (if dateUsec cur < dateUsec d then d else cur) := by
      split <;> [exact le_refl _; exact le_of_not_lt (by assumption)]
    refine ⟨le_trans hcur h1, ?_⟩
    intro x hx
    rcases List.mem_cons.mp hx with hxd | hxs
    · subst hxd; exact le_trans hd h1
    · exact h2 x hxs

theorem pyMax_spec {l : List Date} {m : Date} (h : pyMax l = some m) :
    m ∈ l ∧ ∀ x ∈ l, dateUsec x ≤ dateUsec m := by
  cases l with
  | nil => simp [pyMax] at h
  | cons d ds =>
    have hm : m = pyMaxFold d ds := by
      simpa [pyMax] using h.symm
    subst hm
    constructor
    · rcases pyMaxFold_mem ds d with h1 | h1
      · rw [h1]; exact List.mem_cons_self _ _
      · exact List.mem_cons_of_mem _ h1
    · intro x hx
      obtain ⟨h1, h2⟩ := pyMaxFold_le ds d
      rcases List.mem_cons.mp hx with hxd | hxs
      · subst hxd; exact h1
      · exact h2 x hxs

/-! ## Claims -/

/-- C3: for every parsed completion date (safeguarding or vetting), the
computed expiry date equals the completion date plus exactly 1095 days. -/
theorem c3_expiry_offset :
    (∀ (today : Int) (row : Nat → Option PyStr) (info : RenewalInfo),
        processTrainingRow today row = .ok (some info) →
        info.expiry = dateUsec info.lastCompleted + 1095 * usecPerDay) ∧
    (∀ (today : Int) (cell : Option PyStr) (info : RenewalInfo),
        processVettingRow today cell = .ok (some info) →
        info.expiry = dateUsec info.lastCompleted + 1095 * usecPerDay) := by
  constructor
  · intro today row info h
    rcases hs : sgLatest row with e | od
    · simp [processTrainingRow, hs] at h
    · rcases od with _ | latest
      · simp [processTrainingRow, hs] at h
      · simp only [processTrainingRow, hs] at h
        split at h
        · obtain rfl : info = ⟨latest, expiryOf latest, _⟩ := by
            simpa using h.symm
          simp [expiryOf]; ring
        · simp at h
  · intro today cell info h
    rcases hs : parse_vetting_date cell with e | od
    · simp [processVettingRow, hs] at h
    · rcases od with _ | d
      · simp [processVettingRow, hs] at h
      · simp only [processVettingRow, hs] at h
        split at h
        · obtain rfl : info = ⟨d, expiryOf d, _⟩ := by
            simpa using h.symm
          simp [expiryOf]; ring
        · simp at h

/-- C3 witness: a concrete training row whose safeguarding course is
completed 5/6/2023 yields an expiry of exactly 1095 days later. -/
theorem c3_expiry_offset_witness :
    processTrainingRow (expiryOf ⟨2023, 6, 5⟩)
        (fun i => if i = 7 then
            some ("Safeguarding from 5/6/2023 to 6/6/2023".toList) else none) =
      .ok (some ⟨⟨2023, 6, 5⟩, expiryOf ⟨2023, 6, 5⟩, 0⟩) ∧
    (⟨⟨2023, 6, 5⟩, expiryOf ⟨2023, 6, 5⟩, 0⟩ : RenewalInfo).expiry =
      dateUsec (⟨2023, 6, 5⟩ : Date) + 1095 * usecPerDay :=
  ⟨by rfl,
    c3_expiry_offset.1 (expiryOf ⟨2023, 6, 5⟩)
      (fun i => if i = 7 then
          some ("Safeguarding from 5/6/2023 to 6/6/2023".toList) else none)
      ⟨⟨2023, 6, 5⟩, expiryOf ⟨2023, 6, 5⟩, 0⟩ (by rfl)⟩

/-- C4: a person with a computed expiry date is classified as needing
renewal exactly when today <= expiry <= today + 90 days, both boundaries
inclusive, for the safeguarding and the vetting check alike. -/
theorem c4_renewal_window :
    (∀ (today : Int) (row : Nat → Option PyStr) (latest : Date),
        sgLatest row = .ok (some latest) →
        ((∃ info, processTrainingRow today row = .ok (some info)) ↔
          (today ≤ expiryOf latest ∧ expiryOf latest ≤ today + usecPerDay * 90))) ∧
    (∀ (today : Int) (cell : Option PyStr) (d : Date),
        parse_vetting_date cell = .ok (some d) →
        ((∃ info, processVettingRow today cell = .ok (some info)) ↔
          (today ≤ expiryOf d ∧ expiryOf d ≤ today + usecPerDay * 90))) := by
  constructor
  · intro today row latest h
    simp only [processTrainingRow, h]
    split
    · rename_i hcond
      simp [hcond]
    · rename_i hcond
      simp [hcond]
  · intro today cell d h
    simp only [processVettingRow, h]
    split
    · rename_i hcond
      simp [hcond]
    · rename_i hcond
      simp [hcond]

/-- C4 witness: a vetting date of 04/03/2021 with today equal to the
computed expiry instant is classified as needing renewal. -/
theorem c4_renewal_window_witness :
    parse_vetting_date (some ("04/03/2021".toList)) = .ok (some ⟨2021, 3, 4⟩) ∧
    ((∃ info, processVettingRow (expiryOf ⟨2021, 3, 4⟩)
          (some ("04/03/2021".toList)) = .ok (some info)) ↔
      (expiryOf ⟨2021, 3, 4⟩ ≤ expiryOf ⟨2021, 3, 4⟩ ∧
        expiryOf ⟨2021, 3, 4⟩ ≤ expiryOf ⟨2021, 3, 4⟩ + usecPerDay * 90)) :=
  ⟨by rfl,
    c4_renewal_window.2 (expiryOf ⟨2021, 3, 4⟩) (some ("04/03/2021".toList))
      ⟨2021, 3, 4⟩ (by rfl)⟩

/-- C5: a person with a computed expiry date is classified as expired
exactly when expiry < today, strictly, for the safeguarding and the
vetting check alike. -/
theorem c5_expired_strict :
    (∀ (today : Int) (row : Nat → Option PyStr) (latest : Date),
        sgLatest row = .ok (some latest) →
        ((∃ info, expiredTrainingRow today row = .ok (some info)) ↔
          expiryOf latest < today)) ∧
    (∀ (today : Int) (cell : Option PyStr) (d : Date),
        parse_vetting_date cell = .ok (some d) →
        ((∃ info, expiredVettingRow today cell = .ok (some info)) ↔
          expiryOf d < today)) := by
  constructor
  · intro today row latest h
    simp only [expiredTrainingRow, h]
    split
    · rename_i hcond
      simp [hcond]
    · rename_i hcond
      simp [hcond]
  · intro today cell d h
    simp only [expiredVettingRow, h]
    split
    · rename_i hcond
      simp [hcond]
    · rename_i hcond
      simp [hcond]

/-- C5 witness: a vetting expiry one microsecond in the past is expired
(and the classification at that boundary is governed by the strict
inequality). -/
theorem c5_expired_strict_witness :
    parse_vetting_date (some ("04/03/2021".toList)) = .ok (some ⟨2021, 3, 4⟩) ∧
    ((∃ info, expiredVettingRow (expiryOf ⟨2021, 3, 4⟩ + 1)
          (some ("04/03/2021".toList)) = .ok (some info)) ↔
      expiryOf ⟨2021, 3, 4⟩ < expiryOf ⟨2021, 3, 4⟩ + 1) :=
  ⟨by rfl,
    c5_expired_strict.2 (expiryOf ⟨2021, 3, 4⟩ + 1) (some ("04/03/2021".toList))
      ⟨2021, 3, 4⟩ (by rfl)⟩

/-- C9: the safeguarding completion date a training row contributes (to
the renewal and to the expired classification) is the latest of the dates
extracted from the course columns 5..25; a row with no extracted dates
contributes to neither list. -/
theorem c9_latest_max :
    (∀ (today : Int) (row : Nat → Option PyStr) (ds : List Date) (info : RenewalInfo),
        collectSgDates (trainingCols row) = .ok ds →
        processTrainingRow today row = .ok (some info) →
        info.lastCompleted ∈ ds ∧
          ∀ x ∈ ds, dateUsec x ≤ dateUsec info.lastCompleted) ∧
    (∀ (today : Int) (row : Nat → Option PyStr) (ds : List Date) (info : ExpiredInfo),
        collectSgDates (trainingCols row) = .ok ds →
        expiredTrainingRow today row = .ok (some info) →
        info.lastCompleted ∈ ds ∧
          ∀ x ∈ ds, dateUsec x ≤ dateUsec info.lastCompleted) ∧
    (∀ (today : Int) (row : Nat → Option PyStr),
        collectSgDates (trainingCols row) = .ok [] →
        processTrainingRow today row = .ok none ∧
          expiredTrainingRow today row = .ok none) := by
  refine ⟨?_, ?_, ?_⟩
  · intro today row ds info hc hp
    have hs : sgLatest row = .ok (pyMax ds) := by simp [sgLatest, hc]
    rcases hm : pyMax ds with _ | m
    · rw [hm] at hs; simp [processTrainingRow, hs] at hp
    · rw [hm] at hs
      simp only [processTrainingRow, hs] at hp
      split at hp
      · obtain rfl : info = ⟨m, expiryOf m, _⟩ := by simpa using hp.symm
        exact pyMax_spec hm
      · simp at hp
  · intro today row ds info hc hp
    have hs : sgLatest row = .ok (pyMax ds) := by simp [sgLatest, hc]
    rcases hm : pyMax ds with _ | m
    · rw [hm] at hs; simp [expiredTrainingRow, hs] at hp
    · rw [hm] at hs
      simp only [expiredTrainingRow, hs] at hp
      split at hp
      · obtain rfl : info = ⟨m, expiryOf m, _⟩ := by simpa using hp.symm
        exact pyMax_spec hm
      · simp at hp
  · intro today row hc
    have hs : sgLatest row = .ok none := by simp [sgLatest, hc, pyMax]
    constructor
    · simp [processTrainingRow, hs]
    · simp [expiredTrainingRow, hs]

/-- C9 witness: a row with two qualifying courses (1/1/2020 and 5/6/2023)
is classified by the later date, the earlier one playing no part. -/
theorem c9_latest_max_witness :
    collectSgDates (trainingCols (fun i =>
        if i = 5 then some ("safeguarding from 1/1/2020 to 2/1/2020".toList)
        else if i = 7 then some ("Safeguarding from 5/6/2023 to 6/6/2023".toList)
        else none)) = .ok [⟨2020, 1, 1⟩, ⟨2023, 6, 5⟩] ∧
    ((⟨⟨2023, 6, 5⟩, expiryOf ⟨2023, 6, 5⟩, 0⟩ : RenewalInfo).lastCompleted ∈
        [(⟨2020, 1, 1⟩ : Date), ⟨2023, 6, 5⟩] ∧
      ∀ x ∈ [(⟨2020, 1, 1⟩ : Date), ⟨2023, 6, 5⟩],
        dateUsec x ≤ dateUsec
          (⟨⟨2023, 6, 5⟩, expiryOf ⟨2023, 6, 5⟩, 0⟩ : RenewalInfo).lastCompleted) :=
  ⟨by rfl,
    c9_latest_max.1 (expiryOf ⟨2023, 6, 5⟩)
      (fun i =>
        if i = 5 then some ("safeguarding from 1/1/2020 to 2/1/2020".toList)
        else if i = 7 then some ("Safeguarding from 5/6/2023 to 6/6/2023".toList)
        else none)
      [⟨2020, 1, 1⟩, ⟨2023, 6, 5⟩]
      ⟨⟨2023, 6, 5⟩, expiryOf ⟨2023, 6, 5⟩, 0⟩ (by rfl) (by rfl)⟩

/-- C10: every input text shorter than 50 characters yields the record
with all six fields empty, whatever its content. -/
theorem c10_short_empty :
    ∀ raw : PyStr, raw.length < 50 →
      parse_course_info raw = .ok ⟨[], [], [], [], [], []⟩ := by
  intro raw h
  simp [parse_course_info, h, emptyCourse]

/-- C10 witness: a concrete 24-character text full of structure still
parses to the all-empty record. -/
theorem c10_short_empty_witness :
    parse_course_info ("t\nd\nStatus: x\nloc - date".toList) =
      .ok ⟨[], [], [], [], [], []⟩ :=
  c10_short_empty _ (by decide)

/-- C1 counterexample: the string "31/2/2024" matches the dd/mm/yyyy
pattern, but February has no 31st day, so `datetime` raises `ValueError`
instead of the parser returning a date or absence. -/
theorem c1_counterexample :
    parse_vetting_date (some ("31/2/2024".toList)) = .error () := by rfl

/-- C1 amended: each date parser returns a parsed date or absence for
every input, except that when the pattern match it selects carries
day/month/year numbers that are not a real calendar date, the `datetime`
constructor raises an error; in particular a string that matches no date
pattern always yields absence, never an error. -/
theorem c1_amended_parsers :
    (∀ cell : Option PyStr,
        parse_vetting_date cell = .error () ↔
          ∃ ds ms ys rest, vetCaps cell = some (ds :: ms :: ys :: rest) ∧
            mkDatetime (natOfDigits ys) (natOfDigits ms) (natOfDigits ds) = none) ∧
    (∀ cell : Option PyStr,
        extract_safeguarding_date cell = .error () ↔
          ∃ t ds ms ys rest, cell = some t ∧ sgQualifies t = true ∧
            sgCaps t = some (ds :: ms :: ys :: rest) ∧
            mkDatetime (natOfDigits ys) (natOfDigits ms) (natOfDigits ds) = none) := by
  constructor
  · intro cell
    constructor
    · intro h
      rcases hv : vetCaps cell with _ | caps
      · simp only [parse_vetting_date, hv] at h
        exact Except.noConfusion h
      · rcases caps with _ | ⟨ds, caps⟩
        · simp only [parse_vetting_date, hv] at h
          exact Except.noConfusion h
        rcases caps with _ | ⟨ms, caps⟩
        · simp only [parse_vetting_date, hv] at h
          exact Except.noConfusion h
        rcases caps with _ | ⟨ys, rest⟩
        · simp only [parse_vetting_date, hv] at h
          exact Except.noConfusion h
        rcases hmk : mkDatetime (natOfDigits ys) (natOfDigits ms) (natOfDigits ds)
          with _ | d
        · exact ⟨ds, ms, ys, rest, rfl, hmk⟩
        · simp only [parse_vetting_date, hv, dmYToResult, hmk] at h
          exact Except.noConfusion h
    · rintro ⟨ds, ms, ys, rest, hv, hmk⟩
      simp [parse_vetting_date, hv, dmYToResult, hmk]
  · intro cell
    constructor
    · intro h
      rcases cell with _ | t
      · simp only [extract_safeguarding_date] at h
        exact Except.noConfusion h
      · cases hq : sgQualifies t
        · simp [extract_safeguarding_date, hq] at h
        · rcases hc : sgCaps t with _ | caps
          · simp [extract_safeguarding_date, hq, hc] at h
          · rcases caps with _ | ⟨ds, caps⟩
            · simp [extract_safeguarding_date, hq, hc] at h
            rcases caps with _ | ⟨ms, caps⟩
            · simp [extract_safeguarding_date, hq, hc] at h
            rcases caps with _ | ⟨ys, rest⟩
            · simp [extract_safeguarding_date, hq, hc] at h
            rcases hmk : mkDatetime (natOfDigits ys) (natOfDigits ms) (natOfDigits ds)
              with _ | d
            · exact ⟨t, ds, ms, ys, rest, rfl, hq, hc, hmk⟩
            · simp [extract_safeguarding_date, hq, hc, dmYToResult, hmk] at h
    · rintro ⟨t, ds, ms, ys, rest, rfl, hq, hc, hmk⟩
      simp [extract_safeguarding_date, hq, hc, dmYToResult, hmk]

/-- C2 counterexample: a 50-character single-line text reaches the line
indexing, which raises an `IndexError` instead of silently yielding a
record with empty fields. -/
theorem c2_counterexample :
    parse_course_info (List.replicate 50 'x') = .error () := by rfl

/-- C2 amended: `parse_course_info` returns a record exactly when the
text is shorter than 50 characters, or has a line 2 containing a colon
and a line 3 containing a hyphen among its non-empty stripped lines;
otherwise (too few lines, no colon in line 2, no hyphen in line 3) it
raises an `IndexError`. -/
theorem c2_amended_total_iff :
    ∀ raw : PyStr,
      (∃ cd, parse_course_info raw = .ok cd) ↔
        (raw.length < 50 ∨
          ∃ l2 l3, (courseLines raw).get? 2 = some l2 ∧
            (courseLines raw).get? 3 = some l3 ∧ ':' ∈ l2 ∧ '-' ∈ l3) := by
  intro raw
  by_cases h50 : raw.length < 50
  · simp [parse_course_info, h50]
  · simp only [parse_course_info, if_neg h50, h50, false_or]
    constructor
    · rintro ⟨cd, hcd⟩
      rcases e0 : (courseLines raw).get? 0 with _ | l0
      · simp only [e0] at hcd
        exact Except.noConfusion hcd
      rcases e1 : (courseLines raw).get? 1 with _ | l1
      · simp only [e0, e1] at hcd
        exact Except.noConfusion hcd
      rcases e2 : (courseLines raw).get? 2 with _ | l2
      · simp only [e0, e1, e2] at hcd
        exact Except.noConfusion hcd
      rcases s2 : (pySplitC ':' l2).get? 1 with _ | st
      · simp only [e0, e1, e2, s2] at hcd
        exact Except.noConfusion hcd
      rcases e3 : (courseLines raw).get? 3 with _ | l3
      · simp only [e0, e1, e2, s2, e3] at hcd
        exact Except.noConfusion hcd
      rcases s3 : (pySplitC '-' l3).get? 1 with _ | dt
      · simp only [e0, e1, e2, s2, e3, s3] at hcd
        exact Except.noConfusion hcd
      have hc : ':' ∈ l2 := by
        rcases List.get?_eq_some.mp s2 with ⟨hlt, _⟩
        exact (pySplitC_two_iff ':' l2).mp (by omega)
      have hh : '-' ∈ l3 := by
        rcases List.get?_eq_some.mp s3 with ⟨hlt, _⟩
        exact (pySplitC_two_iff '-' l3).mp (by omega)
      exact ⟨l2, l3, rfl, rfl, hc, hh⟩
    · rintro ⟨l2, l3, e2, e3, hc, hh⟩
      have hlen : 3 < (courseLines raw).length := by
        rcases List.get?_eq_some.mp e3 with ⟨hlt, _⟩
        exact hlt
      obtain ⟨l0, e0⟩ : ∃ l0, (courseLines raw).get? 0 = some l0 :=
        ⟨_, List.get?_eq_get (by omega)⟩
      obtain ⟨l1, e1⟩ : ∃ l1, (courseLines raw).get? 1 = some l1 :=
        ⟨_, List.get?_eq_get (by omega)⟩
      obtain ⟨st, s2⟩ : ∃ st, (pySplitC ':' l2).get? 1 = some st := by
        have h2 := (pySplitC_two_iff ':' l2).mpr hc
        exact ⟨_, List.get?_eq_get (by omega)⟩
      obtain ⟨dt, s3⟩ : ∃ dt, (pySplitC '-' l3).get? 1 = some dt := by
        have h3 := (pySplitC_two_iff '-' l3).mpr hh
        exact ⟨_, List.get?_eq_get (by omega)⟩
      simp only [e0, e1, e2, s2, e3, s3]
      refine ⟨if (l0.isEmpty && l1.isEmpty) = true then emptyCourse
          else ⟨l0, l1, pyStrip st, pyStrip ((pySplitC '-' l3).getD 0 []),
                pyStrip dt,
                if 5 < (courseLines raw).length then (courseLines raw).getD 5 []
                else []⟩, ?_⟩
      by_cases hg : (l0.isEmpty && l1.isEmpty) = true
      · simp [hg]
      · simp [hg]

/-- C6 counterexample: on the blob "ab\ncd" the parser does not assign
line 0 to the title: the short-input guard returns the all-empty record
although line 0 is "ab". -/
theorem c6_counterexample :
    (courseLines ("ab\ncd".toList)).get? 0 = some ("ab".toList) ∧
    parse_course_info ("ab\ncd".toList) = .ok emptyCourse ∧
    emptyCourse.title ≠ "ab".toList :=
  ⟨by rfl, by rfl, by decide⟩

/-- C6 amended: for a text of at least 50 characters that parses without
error, the non-empty stripped lines are assigned positionally: line 0 to
title, line 1 to description, the part of line 2 after the first colon
(stripped) to status, the parts of line 3 before and after the first
hyphen (stripped) to location and date, and line 5 (when more than 5
lines exist) to bookable. -/
theorem c6_amended_fields :
    ∀ (raw : PyStr) (cd : CourseData), ¬ raw.length < 50 →
      parse_course_info raw = .ok cd →
      ∃ l0 l1 l2 l3 st dt,
        (courseLines raw).get? 0 = some l0 ∧
        (courseLines raw).get? 1 = some l1 ∧
        (courseLines raw).get? 2 = some l2 ∧
        (courseLines raw).get? 3 = some l3 ∧
        (pySplitC ':' l2).get? 1 = some st ∧
        (pySplitC '-' l3).get? 1 = some dt ∧
        cd = ⟨l0, l1, pyStrip st, pyStrip ((pySplitC '-' l3).getD 0 []),
              pyStrip dt,
              if 5 < (courseLines raw).length then (courseLines raw).getD 5 []
              else []⟩ := by
  intro raw cd h50 hcd
  simp only [parse_course_info, if_neg h50] at hcd
  rcases e0 : (courseLines raw).get? 0 with _ | l0
  · simp only [e0] at hcd
    exact Except.noConfusion hcd
  rcases e1 : (courseLines raw).get? 1 with _ | l1
  · simp only [e0, e1] at hcd
    exact Except.noConfusion hcd
  rcases e2 : (courseLines raw).get? 2 with _ | l2
  · simp only [e0, e1, e2] at hcd
    exact Except.noConfusion hcd
  rcases s2 : (pySplitC ':' l2).get? 1 with _ | st
  · simp only [e0, e1, e2, s2] at hcd
    exact Except.noConfusion hcd
  rcases e3 : (courseLines raw).get? 3 with _ | l3
  · simp only [e0, e1, e2, s2, e3] at hcd
    exact Except.noConfusion hcd
  rcases s3 : (pySplitC '-' l3).get? 1 with _ | dt
  · simp only [e0, e1, e2, s2, e3, s3] at hcd
    exact Except.noConfusion hcd
  simp only [e0, e1, e2, s2, e3, s3] at hcd
  have hl0 : l0 ≠ [] := mem_courseLines_ne_nil (List.get?_mem e0)
  obtain ⟨a, l0t, rfl⟩ : ∃ a t, l0 = a :: t := by
    cases l0 with
    | nil => exact absurd rfl hl0
    | cons a t => exact ⟨a, t, rfl⟩
  simp only [List.isEmpty_cons, Bool.false_and, Bool.false_eq_true,
    if_false] at hcd
  have hcd2 := hcd.symm
  rw [Except.ok.injEq] at hcd2
  subst hcd2
  exact ⟨a :: l0t, l1, l2, l3, st, dt, rfl, rfl, rfl, rfl, s2, s3, rfl⟩

/-- C6 witness: a well-formed six-line course blob is decomposed into the
six positional fields. -/
theorem c6_amended_fields_witness :
    ∃ l0 l1 l2 l3 st dt,
      (courseLines ("NE-101 Safeguarding Basics\nA training course for scouters everywhere\nStatus: Open\nDublin - 1/2/2025\nSomething\nYes".toList)).get? 0 = some l0 ∧
      (courseLines ("NE-101 Safeguarding Basics\nA training course for scouters everywhere\nStatus: Open\nDublin - 1/2/2025\nSomething\nYes".toList)).get? 1 = some l1 ∧
      (courseLines ("NE-101 Safeguarding Basics\nA training course for scouters everywhere\nStatus: Open\nDublin - 1/2/2025\nSomething\nYes".toList)).get? 2 = some l2 ∧
      (courseLines ("NE-101 Safeguarding Basics\nA training course for scouters everywhere\nStatus: Open\nDublin - 1/2/2025\nSomething\nYes".toList)).get? 3 = some l3 ∧
      (pySplitC ':' l2).get? 1 = some st ∧
      (pySplitC '-' l3).get? 1 = some dt ∧
      (⟨"NE-101 Safeguarding Basics".toList,
        "A training course for scouters everywhere".toList,
        "Open".toList, "Dublin".toList, "1/2/2025".toList,
        "Yes".toList⟩ : CourseData) =
        ⟨l0, l1, pyStrip st, pyStrip ((pySplitC '-' l3).getD 0 []),
         pyStrip dt,
         if 5 < (courseLines ("NE-101 Safeguarding Basics\nA training course for scouters everywhere\nStatus: Open\nDublin - 1/2/2025\nSomething\nYes".toList)).length
         then (courseLines ("NE-101 Safeguarding Basics\nA training course for scouters everywhere\nStatus: Open\nDublin - 1/2/2025\nSomething\nYes".toList)).getD 5 []
         else []⟩ :=
  c6_amended_fields _ _ (by decide) (by rfl)

/-- C7 counterexample: a qualifying text with the pattern
"from 31/2/2025 to" present makes the function raise a `ValueError`
(February 31 does not exist) rather than return the date from the
pattern. -/
theorem c7_counterexample :
    extract_safeguarding_date (some ("safeguarding from 31/2/2025 to x".toList)) =
      .error () := by rfl

/-- C7 amended: a text that matches no safeguarding keyword yields
absence; a qualifying text takes the day/month/year of the
"from D/M/Y to" search when it matches, otherwise of the last date-like
substring found anywhere in the text, otherwise yields absence — where
taking a day/month/year means building the datetime, which raises when
the numbers are not a real calendar date. -/
theorem c7_amended_cases :
    (∀ t : PyStr, sgQualifies t = false →
        extract_safeguarding_date (some t) = .ok none) ∧
    (∀ (t : PyStr) (ds ms ys : PyStr) (rest : List PyStr),
        sgQualifies t = true →
        reSearch fromToks t = some (ds :: ms :: ys :: rest) →
        extract_safeguarding_date (some t) = dmYToResult ds ms ys) ∧
    (∀ (t : PyStr) (ds ms ys : PyStr) (rest : List PyStr),
        sgQualifies t = true →
        reSearch fromToks t = none →
        (reFindAll dateToks t).getLast? = some (ds :: ms :: ys :: rest) →
        extract_safeguarding_date (some t) = dmYToResult ds ms ys) ∧
    (∀ t : PyStr, sgQualifies t = true →
        reSearch fromToks t = none →
        (reFindAll dateToks t).getLast? = none →
        extract_safeguarding_date (some t) = .ok none) := by
  refine ⟨?_, ?_, ?_, ?_⟩
  · intro t hq
    simp [extract_safeguarding_date, hq]
  · intro t ds ms ys rest hq hs
    have hc : sgCaps t = some (ds :: ms :: ys :: rest) := by
      simp [sgCaps, hs]
    simp [extract_safeguarding_date, hq, hc]
  · intro t ds ms ys rest hq hs hl
    have hc : sgCaps t = some (ds :: ms :: ys :: rest) := by
      simp [sgCaps, hs, hl]
    simp [extract_safeguarding_date, hq, hc]
  · intro t hq hs hl
    have hc : sgCaps t = none := by
      simp [sgCaps, hs, hl]
    simp [extract_safeguarding_date, hq, hc]

/-- C7 witness: a qualifying text whose "from 5/6/2023 to" pattern
matches is resolved through that pattern's captures. -/
theorem c7_amended_cases_witness :
    sgQualifies ("Safeguarding from 5/6/2023 to 6/6/2023".toList) = true ∧
    reSearch fromToks ("Safeguarding from 5/6/2023 to 6/6/2023".toList) =
      some ["5".toList, "6".toList, "2023".toList] ∧
    extract_safeguarding_date
        (some ("Safeguarding from 5/6/2023 to 6/6/2023".toList)) =
      dmYToResult ("5".toList) ("6".toList) ("2023".toList) :=
  ⟨by rfl, by rfl,
    c7_amended_cases.2.1 ("Safeguarding from 5/6/2023 to 6/6/2023".toList)
      ("5".toList) ("6".toList) ("2023".toList) [] (by rfl) (by rfl)⟩


/-! ## Rendering a date as dd/mm/yyyy (strftime '%d/%m/%Y') -/

/-- The two zero-padded digits of `n < 100` (strftime `%d`, `%m`). -/
def pad2 (n : Nat) : PyStr := [digitChar (n / 10), digitChar (n % 10)]

/-- The four zero-padded digits of `n < 10000` (strftime `%Y`). -/
def pad4 (n : Nat) : PyStr :=
  [digitChar (n / 1000), digitChar (n / 100 % 10),
   digitChar (n / 10 % 10), digitChar (n % 10)]

/-- A date rendered as the dd/mm/yyyy string of `strftime('%d/%m/%Y')`. -/
def formatDMY (dt : Date) : PyStr :=
  pad2 dt.day ++ '/' :: pad2 dt.month ++ '/' :: pad4 dt.year

/-! ## Exact-fit matching lemma for the regex engine

When the subject splits into one block per token, each block within the
token's repetition range and maximal (the token cannot consume into the
next block), the greedy matcher consumes exactly the blocks, with no
backtracking, and captures the blocks of the capturing tokens. -/

/-- The concatenation of the per-token blocks. -/
def joinBlocks : List (RTok × List Char) → List Char
  | [] => []
  | p :: ps => p.2 ++ joinBlocks ps

/-- The blocks of the capturing tokens, in order. -/
def capsOf : List (RTok × List Char) → List (List Char)
  | [] => []
  | p :: ps => (if p.1.cap then [p.2] else []) ++ capsOf ps

/-- Each block is within its token's repetition range and is exactly the
longest run its token can consume at its position. -/
def blocksOK : List (RTok × List Char) → Prop
  | [] => True
  | p :: ps => p.1.lo ≤ p.2.length ∧
      runMax p.1 (p.2 ++ joinBlocks ps) = p.2.length ∧ blocksOK ps

theorem matchFuel_exact : ∀ ps : List (RTok × List Char), blocksOK ps →
    matchFuel true (ps.length + 1) (ps.map Prod.fst) (joinBlocks ps) =
      some (capsOf ps, (joinBlocks ps).length) := by
  intro ps
  induction ps with
  | nil => intro h; rfl
  | cons p ps ih =>
    rintro ⟨hlo, hrun, hok⟩
    have hdrop : List.drop p.2.length (p.2 ++ joinBlocks ps) = joinBlocks ps :=
      List.drop_left _ _
    have htake : List.take p.2.length (p.2 ++ joinBlocks ps) = p.2 :=
      List.take_left _ _
    have hdr : descRange p.1.lo p.2.length =
        p.2.length :: descFrom (p.2.length - p.1.lo) (p.2.length - 1) := by
      unfold descRange
      rw [Nat.succ_sub hlo]
      rfl
    have step1 : matchFuel true ((p :: ps).length + 1) ((p :: ps).map Prod.fst)
        (joinBlocks (p :: ps)) =
        tryKs p.1 (matchFuel true (ps.length + 1) (ps.map Prod.fst))
          (p.2 ++ joinBlocks ps)
          (descRange p.1.lo (runMax p.1 (p.2 ++ joinBlocks ps))) := rfl
    rw [step1, hrun, hdr]
    simp only [tryKs, hdrop, ih hok, htake]
    simp [capsOf, joinBlocks, List.length_append]

/-! ## Digit-character facts -/

theorem isDig_digitChar : ∀ a : Nat, a < 10 → isDig (digitChar a) = true := by
  decide

theorem toNat_digitChar : ∀ a : Nat, a < 10 → (digitChar a).toNat = 48 + a := by
  decide

theorem not_isSpc_digitChar : ∀ a : Nat, a < 10 → isSpc (digitChar a) = false := by
  decide

theorem beq_slash_digitChar : ∀ a : Nat, a < 10 →
    (digitChar a == '/') = false := by
  decide

theorem natOfDigits_pad2 : ∀ n : Nat, n < 100 → natOfDigits (pad2 n) = n := by
  intro n h
  have h1 : n / 10 < 10 := by omega
  have h2 : n % 10 < 10 := by omega
  simp [natOfDigits, pad2, toNat_digitChar _ h1, toNat_digitChar _ h2]
  omega

theorem natOfDigits_pad4 : ∀ n : Nat, n < 10000 → natOfDigits (pad4 n) = n := by
  intro n h
  have h1 : n / 1000 < 10 := by omega
  have h2 : n / 100 % 10 < 10 := by omega
  have h3 : n / 10 % 10 < 10 := by omega
  have h4 : n % 10 < 10 := by omega
  simp [natOfDigits, pad4, toNat_digitChar _ h1, toNat_digitChar _ h2,
    toNat_digitChar _ h3, toNat_digitChar _ h4]
  omega

theorem dropWhile_eq_self_of (p : Char → Bool) (l : PyStr)
    (h : ∀ c ∈ l, p c = false) : l.dropWhile p = l := by
  cases l with
  | nil => rfl
  | cons c cs => simp [List.dropWhile, h c (List.mem_cons_self c cs)]

theorem pyStrip_eq_self (l : PyStr) (h : ∀ c ∈ l, isSpc c = false) :
    pyStrip l = l := by
  unfold pyStrip
  rw [dropWhile_eq_self_of _ _ h]
  rw [dropWhile_eq_self_of _ _ (fun c hc => h c (List.mem_reverse.mp hc))]
  exact List.reverse_reverse l

/-- C8: rendering any valid calendar date as a dd/mm/yyyy string and
parsing it back with parse_vetting_date returns exactly that date. -/
theorem c8_roundtrip :
    ∀ y m d : Nat, validYMD y m d = true →
      parse_vetting_date (some (formatDMY ⟨y, m, d⟩)) = .ok (some ⟨y, m, d⟩) := by
  intro y m d hv
  have hb : 1 ≤ y ∧ y ≤ 9999 ∧ 1 ≤ m ∧ m ≤ 12 ∧ 1 ≤ d ∧ d ≤ daysInMonth y m := by
    simpa [validYMD, Bool.and_eq_true, decide_eq_true_eq, and_assoc] using hv
  have hdim : daysInMonth y m ≤ 31 := by
    unfold daysInMonth
    split_ifs <;> omega
  obtain ⟨hy1, hy2, hm1, hm2, hd1, hd2⟩ := hb
  have hd100 : d < 100 := by omega
  have hm100 : m < 100 := by omega
  have hy10000 : y < 10000 := by omega
  have f1 : isDig (digitChar (d / 10)) = true := isDig_digitChar _ (by omega)
  have f2 : isDig (digitChar (d % 10)) = true := isDig_digitChar _ (by omega)
  have f3 : isDig (digitChar (m / 10)) = true := isDig_digitChar _ (by omega)
  have f4 : isDig (digitChar (m % 10)) = true := isDig_digitChar _ (by omega)
  have f5 : isDig (digitChar (y / 1000)) = true := isDig_digitChar _ (by omega)
  have f6 : isDig (digitChar (y / 100 % 10)) = true := isDig_digitChar _ (by omega)
  have f7 : isDig (digitChar (y / 10 % 10)) = true := isDig_digitChar _ (by omega)
  have f8 : isDig (digitChar (y % 10)) = true := isDig_digitChar _ (by omega)
  have g0 : isDig '/' = false := rfl
  have g1 : (digitChar (m / 10) == '/') = false := beq_slash_digitChar _ (by omega)
  have g2 : (digitChar (y / 1000) == '/') = false := beq_slash_digitChar _ (by omega)
  have hchars : ∀ c ∈ formatDMY ⟨y, m, d⟩, isSpc c = false := by
    intro c hc
    simp [formatDMY, pad2, pad4] at hc
    rcases hc with rfl | rfl | rfl | rfl | rfl | rfl | rfl | rfl | rfl | rfl
    · exact not_isSpc_digitChar _ (by omega)
    · exact not_isSpc_digitChar _ (by omega)
    · rfl
    · exact not_isSpc_digitChar _ (by omega)
    · exact not_isSpc_digitChar _ (by omega)
    · rfl
    · exact not_isSpc_digitChar _ (by omega)
    · exact not_isSpc_digitChar _ (by omega)
    · exact not_isSpc_digitChar _ (by omega)
    · exact not_isSpc_digitChar _ (by omega)
  have hstrip : pyStrip (formatDMY ⟨y, m, d⟩) = formatDMY ⟨y, m, d⟩ :=
    pyStrip_eq_self _ hchars
  set ps : List (RTok × List Char) :=
    [(digTok 1 2, pad2 d), (litTok '/', ['/']), (digTok 1 2, pad2 m),
     (litTok '/', ['/']), (digTok 4 4, pad4 y)] with hps
  have hjoin : joinBlocks ps = formatDMY ⟨y, m, d⟩ := by
    simp [hps, joinBlocks, formatDMY]
  have hmap : ps.map Prod.fst = vetToks := by
    simp [hps, vetToks]
  have hcaps : capsOf ps = [pad2 d, pad2 m, pad4 y] := by
    simp [hps, capsOf, digTok, litTok]
  have hok : blocksOK ps := by
    refine ⟨?_, ?_, ?_, ?_, ?_, ?_, ?_, ?_, ?_, ?_, trivial⟩
    · norm_num [digTok, pad2]
    · simp [runMax, digTok, litTok, pad2, pad4, joinBlocks, runLen,
        f1, f2, f3, f4, f5, f6, f7, f8, g0, g1, g2]
    · norm_num [litTok]
    · simp [runMax, digTok, litTok, pad2, pad4, joinBlocks, runLen,
        f1, f2, f3, f4, f5, f6, f7, f8, g0, g1, g2]
    · norm_num [digTok, pad2]
    · simp [runMax, digTok, litTok, pad2, pad4, joinBlocks, runLen,
        f1, f2, f3, f4, f5, f6, f7, f8, g0, g1, g2]
    · norm_num [litTok]
    · simp [runMax, digTok, litTok, pad2, pad4, joinBlocks, runLen,
        f1, f2, f3, f4, f5, f6, f7, f8, g0, g1, g2]
    · norm_num [digTok, pad4]
    · simp [runMax, digTok, litTok, pad2, pad4, joinBlocks, runLen,
        f1, f2, f3, f4, f5, f6, f7, f8, g0, g1, g2]
  have hmatch6 : matchFuel true (List.length vetToks + 1) vetToks
      (formatDMY ⟨y, m, d⟩) =
      some ([pad2 d, pad2 m, pad4 y], (formatDMY ⟨y, m, d⟩).length) := by
    have h0 := matchFuel_exact ps hok
    rw [hjoin, hmap, hcaps] at h0
    exact h0
  simp only [parse_vetting_date, vetCaps, hstrip, reFullMatch, hmatch6]
  simp only [dmYToResult, natOfDigits_pad2 d hd100, natOfDigits_pad2 m hm100,
    natOfDigits_pad4 y hy10000]
  simp [mkDatetime, hv]

/-- C8 witness: the valid date 7 March 2024 formats to "07/03/2024" and
parses back to itself. -/
theorem c8_roundtrip_witness :
    validYMD 2024 3 7 = true ∧
    parse_vetting_date (some (formatDMY ⟨2024, 3, 7⟩)) =
      .ok (some ⟨2024, 3, 7⟩) :=
  ⟨by decide, c8_roundtrip 2024 3 7 (by decide)⟩


end Scouts
